import Mathlib

/-!
Verification of the company-research report generator of the valyu ai-sdk
(`companyResearch` in `src/company-research.ts`).  The generator fans out one
Answer-API call per requested report section, filters out answers flagged as
having insufficient information, assembles a markdown report from the usable
sections in the fixed dispatch order, and renders a citation list deduplicated
by source URL via a JavaScript `Map` keyed on `url`.

The definitions below are a shallow embedding of that code: JavaScript strings
become `String`, `undefined`-able fields become `Option`, promises settled by
`Promise.allSettled` become the `SettledResult` sum, and the network is an
oracle assigning each section's call its settled result.
-/

namespace ValyuSdk

/-- Character-by-character ASCII lowercasing, the effect of JavaScript
`toLowerCase` on the ASCII-only hedge phrases checked by the code. -/
def lowerStr (s : String) : String :=
  ⟨s.data.map Char.toLower⟩

/-- Does the haystack list start with the needle list? -/
def listStartsWith : List Char → List Char → Bool
  | _, [] => true
  | [], _ :: _ => false
  | c :: cs, d :: ds => c == d && listStartsWith cs ds

/-- Does the needle occur as a contiguous sublist of the haystack? -/
def listContainsSub : List Char → List Char → Bool
  | [], needle => needle.isEmpty
  | c :: t, needle => listStartsWith (c :: t) needle || listContainsSub t needle

/-- JavaScript `haystack.includes(needle)` on strings. -/
def strIncludes (haystack needle : String) : Bool :=
  listContainsSub haystack.data needle.data

/-- Embedding of the `hasInsufficientInfo` helper: an empty (falsy) content is
insufficient, otherwise the lowercased content is scanned for nine literal
hedge phrases. -/
def hasInsufficientInfo (content : String) : Bool :=
  if content.isEmpty then true
  else
    let lowerContent := lowerStr content
    strIncludes lowerContent "don\x27t have enough information" ||
    strIncludes lowerContent "do not have enough information" ||
    strIncludes lowerContent "i don\x27t have enough information" ||
    strIncludes lowerContent "based on the sources found" ||
    strIncludes lowerContent "insufficient information" ||
    strIncludes lowerContent "no information available" ||
    strIncludes lowerContent "unable to find" ||
    strIncludes lowerContent "cannot provide" ||
    strIncludes lowerContent "not available"

/-- The fixed hedge-phrase set, as listed in `hasInsufficientInfo`. -/
def hedgePhrases : List String :=
  ["don\x27t have enough information",
   "do not have enough information",
   "i don\x27t have enough information",
   "based on the sources found",
   "insufficient information",
   "no information available",
   "unable to find",
   "cannot provide",
   "not available"]

/-- One entry of the `search_results` array of an Answer-API response. -/
structure SearchResult where
  title : Option String
  url : String
  date : Option String
deriving DecidableEq, Repr

/-- The JSON body returned by a successful Answer-API call. -/
structure AnswerResponse where
  success : Bool
  contents : String
  search_results : Option (List SearchResult)
deriving DecidableEq, Repr

/-- One element of the array returned by `Promise.allSettled`. -/
inductive SettledResult (α : Type) where
  | fulfilled (value : α)
  | rejected (error : String)
deriving DecidableEq, Repr

instance : Inhabited (SettledResult α) := ⟨.rejected ""⟩

/-- The JSON payload posted to the Answer endpoint by `callAnswerAPI`. -/
structure AnswerRequest where
  query : String
  data_max_price : Nat
  search_type : Option String
  included_sources : Option (List String)
  start_date : Option String
deriving DecidableEq, Repr

/-- The closed set of report section identifiers of the tool's input schema. -/
inductive SectionId where
  | summary
  | leadership
  | products
  | funding
  | competitors
  | filings
  | financials
  | news
  | insiders
deriving DecidableEq, Repr

/-- The object returned by `execute`. -/
structure ReportOutput where
  company : String
  report : String
  sections : List SectionId
  sources : List SearchResult
deriving DecidableEq, Repr

/-- The fixed dispatch order of the `if selectedSections.includes(...)` chain,
which is also the order of the default `selectedSections` array. -/
def catalogOrder : List SectionId :=
  [.summary, .leadership, .products, .news, .funding, .competitors,
   .filings, .financials, .insiders]

/-- Embedding of `sections || [ ...all nine... ]`: a supplied array (even an
empty one, which is truthy in JavaScript) is used as is, otherwise the full
default list. -/
def selectedSectionsOf (sections : Option (List SectionId)) : List SectionId :=
  sections.getD catalogOrder

/-- The sections for which a request is pushed: the `if ... includes` chain
walks the fixed order and keeps the selected ones. -/
def dispatchedSections (sections : Option (List SectionId)) : List SectionId :=
  catalogOrder.filter (fun s => (selectedSectionsOf sections).contains s)

/-- The `sectionTitles` record. -/
def sectionTitle : SectionId → String
  | .summary => "Business Overview"
  | .leadership => "Leadership & Key People"
  | .products => "Products & Services"
  | .news => "Recent News & Developments"
  | .funding => "Funding & Investment"
  | .competitors => "Competitive Landscape"
  | .filings => "SEC Filings Summary"
  | .financials => "Financial Metrics & Stock Performance"
  | .insiders => "Insider Trading Activity"

/-- The natural-language query template of each section, with the company name
interpolated. -/
def sectionQuery (company : String) : SectionId → String
  | .summary =>
      "Provide a comprehensive business overview of " ++ company ++
      ". Include: company description, industry, headquarters location, founding year, key products/services, and market position. Be factual and cite sources."
  | .leadership =>
      "Who are the key leaders and executives at " ++ company ++
      "? Include CEO, founders, C-suite executives, and board members with their names, titles, and brief backgrounds."
  | .products =>
      "What are the main products and services offered by " ++ company ++
      "? Describe their key offerings, target markets, and product strategy."
  | .news =>
      "What are the most significant recent news and developments about " ++ company ++
      " in the last 30 days? Summarize key events, announcements, and market reactions with specific dates and sources."
  | .funding =>
      "What is the funding history and financial backing of " ++ company ++
      "? Include funding rounds, investors, total capital raised, and valuation if available."
  | .competitors =>
      "Who are the main competitors of " ++ company ++
      "? List direct competitors and describe the competitive landscape in their industry."
  | .filings =>
      "Summarize the key points from " ++ company ++
      "\x27s most recent SEC filings (10-K, 10-Q). Focus on business highlights, financial performance, and risk factors."
  | .financials =>
      "Provide current financial metrics for " ++ company ++
      ": stock price, market cap, revenue, earnings, P/E ratio, and recent financial performance."
  | .insiders =>
      "Summarize recent insider trading activity for " ++ company ++
      ". Include notable buys/sells by executives and board members in the last 90 days."

/-- Year, month and day of the civil (proleptic Gregorian) calendar from a day
count relative to the Unix epoch, with floor division throughout. -/
def civilFromDays (z0 : Int) : Int × Int × Int :=
  let z := z0 + 719468
  let era := Int.fdiv z 146097
  let doe := z - era * 146097
  let yoe := Int.fdiv (doe - Int.fdiv doe 1460 + Int.fdiv doe 36524 - Int.fdiv doe 146096) 365
  let y := yoe + era * 400
  let doy := doe - (365 * yoe + Int.fdiv yoe 4 - Int.fdiv yoe 100)
  let mp := Int.fdiv (5 * doy + 2) 153
  let d := doy - Int.fdiv (153 * mp + 2) 5 + 1
  let m := if mp < 10 then mp + 3 else mp - 9
  (if m ≤ 2 then y + 1 else y, m, d)

/-- Zero-padding to two digits. -/
def pad2 (n : Int) : String :=
  if n < 10 then "0" ++ toString n else toString n

/-- Zero-padding to four digits. -/
def pad4 (n : Int) : String :=
  if n < 10 then "000" ++ toString n
  else if n < 100 then "00" ++ toString n
  else if n < 1000 then "0" ++ toString n
  else toString n

/-- Embedding of `new Date(ms).toISOString().split("T")[0]`: the UTC calendar
date of an epoch-millisecond timestamp, rendered as YYYY-MM-DD. -/
def isoDateOfMillis (ms : Int) : String :=
  let ymd := civilFromDays (Int.fdiv ms 86400000)
  pad4 ymd.1 ++ "-" ++ pad2 ymd.2.1 ++ "-" ++ pad2 ymd.2.2

/-- The request `callAnswerAPI` builds for one section: the query template plus
the per-section options object.  `now` is the epoch-millisecond time at which
the report is generated. -/
def buildRequest (company : String) (dataMaxPrice : Nat) (now : Int) :
    SectionId → AnswerRequest
  | .summary =>
      { query := sectionQuery company .summary, data_max_price := dataMaxPrice,
        search_type := some "all", included_sources := none, start_date := none }
  | .leadership =>
      { query := sectionQuery company .leadership, data_max_price := dataMaxPrice,
        search_type := some "all", included_sources := none, start_date := none }
  | .products =>
      { query := sectionQuery company .products, data_max_price := dataMaxPrice,
        search_type := some "all", included_sources := none, start_date := none }
  | .news =>
      { query := sectionQuery company .news, data_max_price := dataMaxPrice,
        search_type := some "all", included_sources := none,
        start_date := some (isoDateOfMillis (now - 30 * 24 * 60 * 60 * 1000)) }
  | .funding =>
      { query := sectionQuery company .funding, data_max_price := dataMaxPrice,
        search_type := some "all", included_sources := none, start_date := none }
  | .competitors =>
      { query := sectionQuery company .competitors, data_max_price := dataMaxPrice,
        search_type := some "all", included_sources := none, start_date := none }
  | .filings =>
      { query := sectionQuery company .filings, data_max_price := dataMaxPrice,
        search_type := some "proprietary",
        included_sources := some ["valyu/valyu-sec-filings"], start_date := none }
  | .financials =>
      { query := sectionQuery company .financials, data_max_price := dataMaxPrice,
        search_type := some "all", included_sources := none, start_date := none }
  | .insiders =>
      { query := sectionQuery company .insiders, data_max_price := dataMaxPrice,
        search_type := some "proprietary",
        included_sources := some ["valyu/valyu-insider-transactions-US"], start_date := none }

/-- The usability guard of the report loop:
`apiResult.success && apiResult.contents && !hasInsufficientInfo(...)`. -/
def usableResponse (r : AnswerResponse) : Bool :=
  r.success && !r.contents.isEmpty && !hasInsufficientInfo r.contents

/-- Is the settled result of one section's call usable?  A rejected promise
never is; a fulfilled one is usable when its response passes the guard. -/
def usableOutcome : SettledResult AnswerResponse → Bool
  | .fulfilled r => usableResponse r
  | .rejected _ => false

/-- The answer text of a settled result (empty for a rejected call). -/
def contentsOf : SettledResult AnswerResponse → String
  | .fulfilled r => r.contents
  | .rejected _ => ""

/-- The `search_results` array of a settled result (empty when rejected or
when the response carries none). -/
def sourcesOf : SettledResult AnswerResponse → List SearchResult
  | .fulfilled r => r.search_results.getD []
  | .rejected _ => []

/-- Embedding of `Promise.allSettled(apiRequests)`: one settled entry per
dispatched section, in dispatch order (the JavaScript runtime guarantees the
output array follows the input array, not completion order).  A fulfilled call
carries its `{ section, result }` tag; a rejected one only its error. -/
def settleAll (net : SectionId → SettledResult AnswerResponse)
    (secs : List SectionId) : List (SettledResult (SectionId × AnswerResponse)) :=
  secs.map (fun s =>
    match net s with
    | .fulfilled r => .fulfilled (s, r)
    | .rejected e => .rejected e)

/-- The report loop over the settled results: each fulfilled, usable result
appends its section block and pushes its `search_results` onto `allSources`;
rejected or unusable results are skipped. -/
def processResults :
    List (SettledResult (SectionId × AnswerResponse)) →
      List (SectionId × String) × List SearchResult
  | [] => ([], [])
  | res :: rest =>
    let acc := processResults rest
    match res with
    | .fulfilled (s, r) =>
        if usableResponse r then
          ((s, r.contents) :: acc.1, r.search_results.getD [] ++ acc.2)
        else acc
    | .rejected _ => acc

/-- One `Map.set` step of a JavaScript `Map`: an existing key keeps its
position and gets its value overwritten; a new key is appended at the end. -/
def mapInsert (m : List (String × SearchResult)) (k : String) (v : SearchResult) :
    List (String × SearchResult) :=
  if m.any (fun p => p.1 == k) then
    m.map (fun p => if p.1 == k then (k, v) else p)
  else m ++ [(k, v)]

/-- Embedding of `new Map(entries)`: the entries are inserted in order. -/
def jsMapOfList (entries : List (String × SearchResult)) :
    List (String × SearchResult) :=
  entries.foldl (fun m e => mapInsert m e.1 e.2) []

/-- Embedding of
`Array.from(new Map(allSources.map(s => [s.url, s])).values())`. -/
def uniqueSources (allSources : List SearchResult) : List SearchResult :=
  (jsMapOfList (allSources.map (fun s => (s.url, s)))).map Prod.snd

/-- The markdown of one usable section block. -/
def renderBlock (b : SectionId × String) : String :=
  "## " ++ sectionTitle b.1 ++ "\n\n" ++ b.2 ++ "\n\n"

/-- JavaScript `source.title || "Source"` (an absent or empty title is falsy). -/
def titleOrDefault : Option String → String
  | none => "Source"
  | some t => if t.isEmpty then "Source" else t

/-- One numbered line of the citations block. -/
def renderCitationLine (i : Nat) (source : SearchResult) : String :=
  toString (i + 1) ++ ". [" ++ titleOrDefault source.title ++ "](" ++ source.url ++ ")" ++
    (match source.date with
     | some d => " - " ++ d
     | none => "") ++ "\n"

/-- The `## Sources & Citations` block over the deduplicated source list. -/
def renderCitations (us : List SearchResult) : String :=
  "## Sources & Citations\n\n" ++
    String.join (us.enum.map (fun p => renderCitationLine p.1 p.2))

/-- The assembly phase after all calls settle: the subject header, the usable
section blocks, and — only when `allSources` is non-empty — the deduplicated
citations block. -/
def assembleReport (company : String) (selected : List SectionId)
    (results : List (SettledResult (SectionId × AnswerResponse))) : ReportOutput :=
  let acc := processResults results
  let reportMarkdown :=
    "# Company Research Report: " ++ company ++ "\n\n" ++
    String.join (acc.1.map renderBlock) ++
    (if acc.2.length > 0 then renderCitations (uniqueSources acc.2) else "")
  { company := company, report := reportMarkdown,
    sections := selected, sources := acc.2 }

/-- Credential resolution: the config value when supplied, else the
environment variable (the destructuring default applies only when the config
field is absent). -/
def resolveApiKey (configKey envKey : Option String) : Option String :=
  match configKey with
  | some k => some k
  | none => envKey

/-- JavaScript falsiness of the resolved key in `if (!apiKey) throw`: absent
or empty. -/
def isMissingKey : Option String → Bool
  | none => true
  | some k => k.isEmpty

/-- The error message thrown when the credential is missing. -/
def missingKeyMessage : String :=
  "VALYU_API_KEY is required. Set it in environment variables or pass it in config."

/-- Embedding of `companyResearch(config).execute({ company, sections })`.
`net` is the network oracle giving each section's settled call result and
`now` the epoch-millisecond generation time.  Returns the thrown error or the
report output, paired with the list of requests actually issued to the
network. -/
def execute (configKey envKey : Option String) (dataMaxPrice : Nat) (now : Int)
    (company : String) (sections : Option (List SectionId))
    (net : SectionId → SettledResult AnswerResponse) :
    Except String ReportOutput × List AnswerRequest :=
  let apiKey := resolveApiKey configKey envKey
  if isMissingKey apiKey then (.error missingKeyMessage, [])
  else
    let dispatched := dispatchedSections sections
    let requests := dispatched.map (buildRequest company dataMaxPrice now)
    let results := settleAll net dispatched
    (.ok (assembleReport company (selectedSectionsOf sections) results), requests)

/-- The section blocks the report loop produces for a given request. -/
def executeBlocks (sections : Option (List SectionId))
    (net : SectionId → SettledResult AnswerResponse) : List (SectionId × String) :=
  (processResults (settleAll net (dispatchedSections sections))).1

/-- The flat (pre-dedup) `allSources` list of a given request. -/
def executeSources (sections : Option (List SectionId))
    (net : SectionId → SettledResult AnswerResponse) : List SearchResult :=
  (processResults (settleAll net (dispatchedSections sections))).2

/-- The settled results tagged with their slot index in dispatch order — the
data a completion schedule permutes. -/
def indexedResults (sections : Option (List SectionId))
    (net : SectionId → SettledResult AnswerResponse) :
    List (Nat × SettledResult (SectionId × AnswerResponse)) :=
  (settleAll net (dispatchedSections sections)).enum

/-- Reconstruction of the `Promise.allSettled` output array from settlement
events received in arrival order: each slot `i` of the output is filled with
the event carrying index `i`. -/
def reorderSettled (n : Nat)
    (arrival : List (Nat × SettledResult (SectionId × AnswerResponse))) :
    List (SettledResult (SectionId × AnswerResponse)) :=
  (List.range n).filterMap (fun i => (arrival.find? (fun p => p.1 == i)).map Prod.snd)

/-- The run as seen through a concrete settlement schedule: the settled events
arrive in the order given by `arrival` and are slotted back into dispatch
order before the report is assembled. -/
def executeFromArrival (configKey envKey : Option String) (dataMaxPrice : Nat)
    (now : Int) (company : String) (sections : Option (List SectionId))
    (arrival : List (Nat × SettledResult (SectionId × AnswerResponse))) :
    Except String ReportOutput × List AnswerRequest :=
  let apiKey := resolveApiKey configKey envKey
  if isMissingKey apiKey then (.error missingKeyMessage, [])
  else
    let dispatched := dispatchedSections sections
    let requests := dispatched.map (buildRequest company dataMaxPrice now)
    let results := reorderSettled dispatched.length arrival
    (.ok (assembleReport company (selectedSectionsOf sections) results), requests)

/-- Specification-side first-seen deduplication of a key list: a key already
seen is dropped, a new key is kept and recorded. -/
def firstSeenAux (seen : List String) : List String → List String
  | [] => []
  | u :: rest =>
      if seen.contains u then firstSeenAux seen rest
      else u :: firstSeenAux (u :: seen) rest

/-- The keys of a list in first-seen order, each exactly once. -/
def firstSeenKeys (l : List String) : List String :=
  firstSeenAux [] l

/-- The last element of `srcs` whose `url` equals `k` — the value a JavaScript
`Map` keyed on `url` ends up storing under `k`. -/
def lastEntryFor (srcs : List SearchResult) (k : String) : Option SearchResult :=
  (srcs.filter (fun s => s.url == k)).getLast?

/-! ### Characterization of the report loop -/

/-- The report loop over the settled results of `secs` keeps exactly the
usable sections, in dispatch order: the blocks are the usable sections paired
with their answer text, and `allSources` is the concatenation of their
`search_results` lists. -/
theorem processResults_settleAll (net : SectionId → SettledResult AnswerResponse)
    (secs : List SectionId) :
    processResults (settleAll net secs) =
      ((secs.filter (fun s => usableOutcome (net s))).map
          (fun s => (s, contentsOf (net s))),
        ((secs.filter (fun s => usableOutcome (net s))).map
          (fun s => sourcesOf (net s))).flatten) := by
  induction secs with
  | nil => rfl
  | cons s rest ih =>
    cases hs : net s with
    | fulfilled r =>
      cases hr : usableResponse r <;>
        simp [settleAll, processResults, List.filter_cons, usableOutcome, hs, hr,
          contentsOf, sourcesOf, settleAll] at ih ⊢ <;>
        simp [ih]
    | rejected e =>
      simp [settleAll, processResults, List.filter_cons, usableOutcome, hs] at ih ⊢
      simp [ih]

/-- The sections owning the report blocks are the dispatched sections whose
outcome is usable, in dispatch order. -/
theorem executeBlocks_map_fst (sections : Option (List SectionId))
    (net : SectionId → SettledResult AnswerResponse) :
    (executeBlocks sections net).map Prod.fst =
      (dispatchedSections sections).filter (fun s => usableOutcome (net s)) := by
  unfold executeBlocks
  rw [processResults_settleAll]
  simp only [List.map_map]
  exact List.map_id _

/-- The flat source list is the concatenation of the usable sections'
`search_results` lists, in dispatch order. -/
theorem executeSources_eq (sections : Option (List SectionId))
    (net : SectionId → SettledResult AnswerResponse) :
    executeSources sections net =
      (((dispatchedSections sections).filter (fun s => usableOutcome (net s))).map
        (fun s => sourcesOf (net s))).flatten := by
  unfold executeSources
  rw [processResults_settleAll]

/-! ### First-seen deduplication -/

/-- The first-seen scan depends on the seen list only through membership. -/
theorem firstSeenAux_congr {seen seen' : List String}
    (h : ∀ u, seen.contains u = seen'.contains u) :
    ∀ l, firstSeenAux seen l = firstSeenAux seen' l := by
  intro l
  induction l generalizing seen seen' with
  | nil => rfl
  | cons u rest ih =>
    simp only [firstSeenAux]
    rw [h u]
    by_cases hc : seen'.contains u = true
    · rw [if_pos hc, if_pos hc]
      exact ih h
    · rw [if_neg hc, if_neg hc]
      have h' : ∀ x, (u :: seen).contains x = (u :: seen').contains x := by
        intro x
        rw [List.contains_cons, List.contains_cons, h x]
      rw [ih h']

/-- Every key the scan emits occurs in the input. -/
theorem mem_of_mem_firstSeenAux {seen l : List String} {x : String}
    (h : x ∈ firstSeenAux seen l) : x ∈ l := by
  induction l generalizing seen with
  | nil => simp [firstSeenAux] at h
  | cons u rest ih =>
    simp only [firstSeenAux] at h
    by_cases hc : seen.contains u = true
    · rw [if_pos hc] at h
      exact List.mem_cons_of_mem _ (ih h)
    · rw [if_neg hc] at h
      rcases List.mem_cons.mp h with h | h
      · exact h ▸ List.mem_cons_self _ _
      · exact List.mem_cons_of_mem _ (ih h)

/-- No emitted key was already seen. -/
theorem not_seen_of_mem_firstSeenAux {seen l : List String} {x : String}
    (h : x ∈ firstSeenAux seen l) : seen.contains x = false := by
  induction l generalizing seen with
  | nil => simp [firstSeenAux] at h
  | cons u rest ih =>
    simp only [firstSeenAux] at h
    by_cases hc : seen.contains u = true
    · rw [if_pos hc] at h
      exact ih h
    · rw [if_neg hc] at h
      rcases List.mem_cons.mp h with h | h
      · subst h
        exact Bool.eq_false_iff.mpr hc
      · have h2 := ih h
        rw [List.contains_cons] at h2
        exact (Bool.or_eq_false_iff.mp h2).2

/-- The emitted keys are distinct. -/
theorem firstSeenAux_nodup (seen l : List String) :
    (firstSeenAux seen l).Nodup := by
  induction l generalizing seen with
  | nil => simp [firstSeenAux]
  | cons u rest ih =>
    simp only [firstSeenAux]
    by_cases hc : seen.contains u = true
    · rw [if_pos hc]
      exact ih seen
    · rw [if_neg hc]
      refine List.Nodup.cons ?_ (ih (u :: seen))
      intro hmem
      have h2 := not_seen_of_mem_firstSeenAux hmem
      rw [List.contains_cons] at h2
      have h3 := (Bool.or_eq_false_iff.mp h2).1
      exact beq_eq_false_iff_ne.mp h3 rfl

/-- Membership in the scan output: exactly the unseen keys of the input. -/
theorem mem_firstSeenAux {seen l : List String} {x : String} :
    x ∈ firstSeenAux seen l ↔ x ∈ l ∧ seen.contains x = false := by
  constructor
  · intro h
    exact ⟨mem_of_mem_firstSeenAux h, not_seen_of_mem_firstSeenAux h⟩
  · rintro ⟨hx, hseen⟩
    induction l generalizing seen with
    | nil => simp at hx
    | cons u rest ih =>
      simp only [firstSeenAux]
      by_cases hc : seen.contains u = true
      · have hxu : x ≠ u := by
          rintro rfl
          rw [hseen] at hc
          exact Bool.false_ne_true hc
        rw [if_pos hc]
        rcases List.mem_cons.mp hx with h | h
        · exact absurd h hxu
        · exact ih h hseen
      · rw [if_neg hc]
        by_cases hxu : x = u
        · exact hxu ▸ List.mem_cons_self _ _
        · rcases List.mem_cons.mp hx with h | h
          · exact absurd h hxu
          · refine List.mem_cons_of_mem _ (ih h ?_)
            rw [List.contains_cons, Bool.or_eq_false_iff]
            exact ⟨beq_eq_false_iff_ne.mpr hxu, hseen⟩

/-- Key membership distributes over an appended seen list. -/
theorem contains_append (l m : List String) (x : String) :
    (l ++ m).contains x = (l.contains x || m.contains x) := by
  induction l with
  | nil => simp [List.contains_cons]
  | cons a t ih =>
    rw [List.cons_append, List.contains_cons, List.contains_cons, ih, Bool.or_assoc]

/-- Splitting the scan across an append: the tail is scanned with the prefix
added to the seen keys. -/
theorem firstSeenAux_append (seen l₁ l₂ : List String) :
    firstSeenAux seen (l₁ ++ l₂) =
      firstSeenAux seen l₁ ++ firstSeenAux (l₁ ++ seen) l₂ := by
  induction l₁ generalizing seen with
  | nil => simp [firstSeenAux]
  | cons u rest ih =>
    simp only [List.cons_append, firstSeenAux, List.append_eq]
    by_cases hc : seen.contains u = true
    · rw [if_pos hc, if_pos hc, ih]
      refine congrArg _ (firstSeenAux_congr ?_ l₂)
      intro x
      rw [List.contains_cons]
      by_cases hxu : (x == u) = true
      · have hx : seen.contains x = true := by
          rw [eq_of_beq hxu]
          exact hc
        rw [hxu, Bool.true_or, contains_append, hx, Bool.or_true]
      · rw [Bool.eq_false_iff.mpr hxu, Bool.false_or]
    · rw [if_neg hc, if_neg hc, ih]
      refine congrArg _ (congrArg _ (firstSeenAux_congr ?_ l₂))
      intro x
      rw [contains_append, List.contains_cons, List.contains_cons,
        contains_append]
      cases x == u <;> cases rest.contains x <;> cases seen.contains x <;> rfl

/-! ### The JavaScript Map dedup -/

/-- The last element of a non-nil list is a member. -/
theorem mem_of_getLast?_eq_some {α : Type} {l : List α} {a : α}
    (h : l.getLast? = some a) : a ∈ l := by
  rcases eq_or_ne l [] with rfl | hne
  · simp at h
  · rw [List.getLast?_eq_getLast l hne] at h
    exact Option.some_inj.mp h ▸ List.getLast_mem hne

/-- A key occurring among the entry keys has a last entry, and that entry
carries the key. -/
theorem getLast?_filter_key (es : List (String × SearchResult)) (k : String)
    (hk : k ∈ es.map Prod.fst) :
    ∃ q, (es.filter (fun p => p.1 == k)).getLast? = some q ∧ q.1 = k := by
  have hne : es.filter (fun p => p.1 == k) ≠ [] := by
    rcases List.mem_map.mp hk with ⟨p, hp, hpk⟩
    intro hnil
    have hmem : p ∈ es.filter (fun p => p.1 == k) :=
      List.mem_filter.mpr ⟨hp, beq_iff_eq.mpr hpk⟩
    rw [hnil] at hmem
    simp at hmem
  refine ⟨(es.filter (fun p => p.1 == k)).getLast hne,
    List.getLast?_eq_getLast _ hne, ?_⟩
  have hmem := List.getLast_mem hne
  exact beq_iff_eq.mp (List.mem_filter.mp hmem).2

/-- Projecting the keys back out of a keyed `filterMap` recovers the key
list. -/
theorem map_of_filterMap_keys {β : Type} {ks : List String} {f : String → Option β}
    {g : β → String} (h : ∀ k ∈ ks, ∃ v, f k = some v ∧ g v = k) :
    (ks.filterMap f).map g = ks := by
  induction ks with
  | nil => rfl
  | cons k t ih =>
    rcases h k (List.mem_cons_self _ _) with ⟨v, hv, hgv⟩
    rw [List.filterMap_cons_some hv, List.map_cons, hgv,
      ih (fun x hx => h x (List.mem_cons_of_mem _ hx))]

/-- Folding one more entry into the map is one `Map.set`. -/
theorem jsMapOfList_append_singleton (es : List (String × SearchResult))
    (e : String × SearchResult) :
    jsMapOfList (es ++ [e]) = mapInsert (jsMapOfList es) e.1 e.2 := by
  unfold jsMapOfList
  rw [List.foldl_append]
  rfl

/-- The JavaScript `Map` built from a list of keyed entries, as a whole: one
entry per key in first-seen key order, each carrying the LAST value inserted
under that key.  This is the exact insert-or-overwrite semantics of
`new Map(entries)`. -/
theorem jsMapOfList_eq (es : List (String × SearchResult)) :
    jsMapOfList es =
      (firstSeenKeys (es.map Prod.fst)).filterMap
        (fun k => (es.filter (fun p => p.1 == k)).getLast?) := by
  induction es using List.reverseRecOn with
  | nil => rfl
  | append_singleton es e ih =>
    rw [jsMapOfList_append_singleton, ih]
    have hfprop : ∀ k ∈ firstSeenKeys (es.map Prod.fst),
        ∃ q, (es.filter (fun p => p.1 == k)).getLast? = some q ∧ q.1 = k :=
      fun k hk => getLast?_filter_key es k (mem_of_mem_firstSeenAux hk)
    have hfilter_singleton_eq : [e].filter (fun p => p.1 == e.1) = [e] := by
      rw [List.filter_cons, if_pos (beq_iff_eq.mpr rfl), List.filter_nil]
    have hfilter_singleton_ne : ∀ k, k ≠ e.1 → [e].filter (fun p => p.1 == k) = [] := by
      intro k hk
      rw [List.filter_cons, if_neg, List.filter_nil]
      intro hbeq
      exact hk (beq_iff_eq.mp hbeq).symm
    have hfprime_ne : ∀ k, k ≠ e.1 →
        ((es ++ [e]).filter (fun p => p.1 == k)).getLast? =
          (es.filter (fun p => p.1 == k)).getLast? := by
      intro k hk
      rw [List.filter_append, hfilter_singleton_ne k hk, List.append_nil]
    have hfprime_eq :
        ((es ++ [e]).filter (fun p => p.1 == e.1)).getLast? = some e := by
      rw [List.filter_append, hfilter_singleton_eq, List.getLast?_concat]
    by_cases hc : (es.map Prod.fst).contains e.1 = true
    · -- the key was already present: the map keeps its shape, the value at
      -- the key is overwritten
      have hany : ((firstSeenKeys (es.map Prod.fst)).filterMap
          (fun k => (es.filter (fun p => p.1 == k)).getLast?)).any
            (fun p => p.1 == e.1) = true := by
        rw [List.any_eq_true]
        have hmem : e.1 ∈ firstSeenKeys (es.map Prod.fst) :=
          mem_firstSeenAux.mpr ⟨(List.elem_iff.mp hc), rfl⟩
        rcases hfprop e.1 hmem with ⟨q, hq, hqk⟩
        exact ⟨q, List.mem_filterMap.mpr ⟨e.1, hmem, hq⟩, beq_iff_eq.mpr hqk⟩
      have hkeys : firstSeenKeys ((es ++ [e]).map Prod.fst) =
          firstSeenKeys (es.map Prod.fst) := by
        unfold firstSeenKeys
        rw [List.map_append, firstSeenAux_append]
        simp only [List.map_cons, List.map_nil, List.append_nil, firstSeenAux]
        rw [if_pos hc, List.append_nil]
      rw [mapInsert, if_pos hany, hkeys, List.map_filterMap]
      refine List.filterMap_congr ?_
      intro k hk
      rcases hfprop k hk with ⟨q, hq, hqk⟩
      by_cases hke : k = e.1
      · subst hke
        rw [hq, hfprime_eq]
        simp only [Option.map_some']
        rw [if_pos (beq_iff_eq.mpr hqk)]
      · rw [hq, hfprime_ne k hke, hq]
        simp only [Option.map_some']
        rw [if_neg]
        intro hbeq
        exact hke (hqk ▸ beq_iff_eq.mp hbeq)
    · -- a fresh key: the entry is appended at the end of the map
      have hnotmem : e.1 ∉ es.map Prod.fst := by
        intro hmem
        exact hc (List.elem_eq_true_of_mem hmem)
      have hany : ¬ ((firstSeenKeys (es.map Prod.fst)).filterMap
          (fun k => (es.filter (fun p => p.1 == k)).getLast?)).any
            (fun p => p.1 == e.1) = true := by
        rw [List.any_eq_true]
        rintro ⟨q, hqmem, hqbeq⟩
        rcases List.mem_filterMap.mp hqmem with ⟨k, hk, hfk⟩
        rcases hfprop k hk with ⟨q', hq', hq'k⟩
        rw [hq'] at hfk
        have hqq : q' = q := Option.some_inj.mp hfk
        have : k = e.1 := by
          rw [← hq'k, hqq]
          exact beq_iff_eq.mp hqbeq
        exact hnotmem (this ▸ mem_of_mem_firstSeenAux hk)
      have hkeys : firstSeenKeys ((es ++ [e]).map Prod.fst) =
          firstSeenKeys (es.map Prod.fst) ++ [e.1] := by
        unfold firstSeenKeys
        rw [List.map_append, firstSeenAux_append]
        simp only [List.map_cons, List.map_nil, List.append_nil, firstSeenAux]
        rw [if_neg hc]
      rw [mapInsert, if_neg hany, hkeys, List.filterMap_append]
      refine congrArg₂ _ ?_ ?_
      · refine List.filterMap_congr ?_
        intro k hk
        have hke : k ≠ e.1 := by
          intro h
          exact hnotmem (h ▸ mem_of_mem_firstSeenAux hk)
        exact (hfprime_ne k hke).symm
      · simp only [List.filterMap_cons, List.filterMap_nil, hfprime_eq, Prod.mk.eta]

/-- The dedup of the source list, as a whole: for each URL in first-seen
order, the LAST source carrying that URL. -/
theorem uniqueSources_eq (srcs : List SearchResult) :
    uniqueSources srcs =
      (firstSeenKeys (srcs.map (fun s => s.url))).filterMap (lastEntryFor srcs) := by
  unfold uniqueSources lastEntryFor
  rw [jsMapOfList_eq, List.map_filterMap]
  have hkeys : (srcs.map (fun s => (s.url, s))).map Prod.fst =
      srcs.map (fun s => s.url) := by
    rw [List.map_map]
    rfl
  rw [hkeys]
  refine List.filterMap_congr ?_
  intro k _
  have hfil : (srcs.map (fun s => (s.url, s))).filter (fun p => p.1 == k) =
      (srcs.filter (fun s => s.url == k)).map (fun s => (s.url, s)) := by
    rw [List.filter_map]
    rfl
  rw [hfil, List.getLast?_map, Option.map_map]
  cases (srcs.filter (fun s => s.url == k)).getLast? with
  | none => rfl
  | some q => rfl

/-! ### Reconstruction of the settled array from an arrival schedule -/

/-- Evaluating `getD` over the index range rebuilds the list. -/
theorem map_getD_range {α : Type} [Inhabited α] (l : List α) :
    (List.range l.length).map (fun i => l.getD i default) = l := by
  induction l with
  | nil => rfl
  | cons x xs ih =>
    rw [List.length_cons, List.range_succ_eq_map, List.map_cons, List.map_map]
    simp only [List.getD_cons_zero]
    have hcomp : (List.range xs.length).map
        ((fun i => (x :: xs).getD i default) ∘ Nat.succ) =
        (List.range xs.length).map (fun i => xs.getD i default) := by
      refine List.map_congr_left ?_
      intro a _
      show (x :: xs).getD (a + 1) default = xs.getD a default
      exact List.getD_cons_succ
    rw [hcomp, ih]

/-- In any permutation of the indexed settled results, the event found for
slot `i` is slot `i`'s own result. -/
theorem find?_of_perm_enum {l : List (SettledResult (SectionId × AnswerResponse))}
    {arrival : List (Nat × SettledResult (SectionId × AnswerResponse))}
    (hperm : arrival.Perm l.enum) {i : Nat} (hi : i < l.length) :
    arrival.find? (fun p => p.1 == i) = some (i, l.getD i default) := by
  cases hfind : arrival.find? (fun p => p.1 == i) with
  | none =>
    exfalso
    have hmem : (i, l.getD i default) ∈ l.enum := by
      rw [List.mem_enum_iff_getElem?]
      show l[i]? = some (l.getD i default)
      rw [List.getElem?_eq_getElem hi, List.getD_eq_getElem l default hi]
    have hmem' : (i, l.getD i default) ∈ arrival := hperm.mem_iff.mpr hmem
    exact List.find?_eq_none.mp hfind _ hmem' (beq_iff_eq.mpr rfl)
  | some x =>
    have hbeq : (x.1 == i) = true :=
      @List.find?_some _ (fun q => q.1 == i) x arrival hfind
    have hx1 : x.1 = i := beq_iff_eq.mp hbeq
    have hxmem : x ∈ l.enum := hperm.mem_iff.mp (List.mem_of_find?_eq_some hfind)
    have hget : l[x.1]? = some x.2 := List.mem_enum_iff_getElem?.mp hxmem
    rw [hx1, List.getElem?_eq_getElem hi] at hget
    have hx2 : x.2 = l.getD i default := by
      rw [List.getD_eq_getElem l default hi]
      exact (Option.some_inj.mp hget).symm
    have hx : x = (i, l.getD i default) := by
      rw [← hx2, ← hx1]
    rw [hx]

/-- A `filterMap` that always produces a value is a `map`. -/
theorem filterMap_some_eq_map {α β : Type} (g : α → β) (xs : List α) :
    xs.filterMap (fun a => some (g a)) = xs.map g := by
  induction xs with
  | nil => rfl
  | cons a t ih =>
    rw [@List.filterMap_cons_some _ _ (fun a => some (g a)) a t (g a) rfl,
      List.map_cons, ih]

/-- Slotting any arrival permutation of the indexed results back by index
recovers the results in dispatch order. -/
theorem reorderSettled_of_perm {l : List (SettledResult (SectionId × AnswerResponse))}
    {arrival : List (Nat × SettledResult (SectionId × AnswerResponse))}
    (hperm : arrival.Perm l.enum) :
    reorderSettled l.length arrival = l := by
  unfold reorderSettled
  have h1 : ∀ i ∈ List.range l.length,
      (arrival.find? (fun p => p.1 == i)).map Prod.snd =
        some (l.getD i default) := by
    intro i hi
    rw [find?_of_perm_enum hperm (List.mem_range.mp hi)]
    rfl
  rw [List.filterMap_congr h1, filterMap_some_eq_map, map_getD_range]

/-- Any run observed through an arrival schedule that is a permutation of the
indexed results coincides with the canonical run. -/
theorem executeFromArrival_eq_execute (configKey envKey : Option String)
    (dataMaxPrice : Nat) (now : Int) (company : String)
    (sections : Option (List SectionId))
    (net : SectionId → SettledResult AnswerResponse)
    (arrival : List (Nat × SettledResult (SectionId × AnswerResponse)))
    (h : arrival.Perm (indexedResults sections net)) :
    executeFromArrival configKey envKey dataMaxPrice now company sections arrival =
      execute configKey envKey dataMaxPrice now company sections net := by
  have hre : reorderSettled (dispatchedSections sections).length arrival =
      settleAll net (dispatchedSections sections) := by
    have hlen : (dispatchedSections sections).length =
        (settleAll net (dispatchedSections sections)).length :=
      (List.length_map _ _).symm
    rw [hlen]
    exact reorderSettled_of_perm h
  simp only [executeFromArrival, execute, hre]

/-! ### Usability and block membership -/

/-- Unfolding the usability guard of a settled result into its components:
the call fulfilled, the response marked successful, non-empty text, and text
not flagged as insufficient. -/
theorem usableOutcome_iff (o : SettledResult AnswerResponse) :
    usableOutcome o = true ↔
      ∃ r, o = .fulfilled r ∧ r.success = true ∧ r.contents ≠ "" ∧
        hasInsufficientInfo r.contents = false := by
  cases o with
  | fulfilled r =>
    simp only [usableOutcome, usableResponse, Bool.and_eq_true, Bool.not_eq_true']
    constructor
    · rintro ⟨⟨h1, h2⟩, h3⟩
      refine ⟨r, rfl, h1, ?_, h3⟩
      intro hc
      rw [hc] at h2
      exact absurd h2 (by decide)
    · rintro ⟨r', hr', h1, h2, h3⟩
      obtain rfl : r = r' := by injection hr'
      refine ⟨⟨h1, ?_⟩, h3⟩
      rw [Bool.eq_false_iff]
      intro hemp
      exact h2 ((String.isEmpty_iff _).mp hemp)
  | rejected e =>
    simp only [usableOutcome]
    constructor
    · intro h
      exact absurd h Bool.false_ne_true
    · rintro ⟨r', hr', _⟩
      exact absurd hr' (by intro h; injection h)

/-- A block belongs to the report exactly when its section was dispatched,
its outcome usable, and its text the outcome's answer text. -/
theorem mem_executeBlocks_iff (sections : Option (List SectionId))
    (net : SectionId → SettledResult AnswerResponse) (s : SectionId) (c : String) :
    (s, c) ∈ executeBlocks sections net ↔
      s ∈ dispatchedSections sections ∧ usableOutcome (net s) = true ∧
        c = contentsOf (net s) := by
  unfold executeBlocks
  rw [processResults_settleAll]
  simp only [List.mem_map, List.mem_filter, Prod.mk.injEq]
  constructor
  · rintro ⟨a, ⟨h1, h2⟩, ha, hc⟩
    subst ha
    exact ⟨h1, h2, hc.symm⟩
  · rintro ⟨h1, h2, hc⟩
    exact ⟨s, ⟨h1, h2⟩, rfl, hc.symm⟩

/-- A URL occurring among the source URLs has a last source, and that source
carries the URL. -/
theorem lastEntryFor_key (srcs : List SearchResult) (k : String)
    (hk : k ∈ srcs.map (fun s => s.url)) :
    ∃ q, lastEntryFor srcs k = some q ∧ q.url = k := by
  have hne : srcs.filter (fun s => s.url == k) ≠ [] := by
    rcases List.mem_map.mp hk with ⟨p, hp, hpk⟩
    intro hnil
    have hmem : p ∈ srcs.filter (fun s => s.url == k) :=
      List.mem_filter.mpr ⟨hp, beq_iff_eq.mpr hpk⟩
    rw [hnil] at hmem
    simp at hmem
  refine ⟨(srcs.filter (fun s => s.url == k)).getLast hne, ?_, ?_⟩
  · unfold lastEntryFor
    exact List.getLast?_eq_getLast _ hne
  · have hmem := List.getLast_mem hne
    exact beq_iff_eq.mp (List.mem_filter.mp hmem).2

/-! ### The claims -/

/-- C1: for every set of section outcomes, the citation list rendered in the
final report contains no two entries with the same URL, its URLs appear in
first-seen order over the flat source list, and that flat list is collected
from the usable sections in fixed catalog (dispatch) order — so entries appear
in the order the owning section, taken in catalog order, first introduced
them. -/
theorem report_citations_unique_and_ordered (sections : Option (List SectionId))
    (net : SectionId → SettledResult AnswerResponse) :
    ((uniqueSources (executeSources sections net)).map (fun s => s.url)).Nodup ∧
    (uniqueSources (executeSources sections net)).map (fun s => s.url) =
      firstSeenKeys ((executeSources sections net).map (fun s => s.url)) ∧
    executeSources sections net =
      (((dispatchedSections sections).filter (fun s => usableOutcome (net s))).map
        (fun s => sourcesOf (net s))).flatten := by
  have hmid : ∀ srcs : List SearchResult,
      (uniqueSources srcs).map (fun s => s.url) =
        firstSeenKeys (srcs.map (fun s => s.url)) := by
    intro srcs
    rw [uniqueSources_eq]
    refine map_of_filterMap_keys ?_
    intro k hk
    exact lastEntryFor_key srcs k (mem_of_mem_firstSeenAux hk)
  refine ⟨?_, hmid _, executeSources_eq sections net⟩
  rw [hmid _]
  exact firstSeenAux_nodup [] _

/-- C2: for every request and settled outcomes, the assembled report body
contains a rendered block for a section iff that section was dispatched and
its outcome was usable — the call fulfilled, the response marked success, the
text non-empty, and the text not classified insufficient; unusable and failed
sections are silently omitted. -/
theorem report_block_iff_usable (sections : Option (List SectionId))
    (net : SectionId → SettledResult AnswerResponse) (s : SectionId) :
    s ∈ (executeBlocks sections net).map Prod.fst ↔
      s ∈ dispatchedSections sections ∧
        ∃ r, net s = .fulfilled r ∧ r.success = true ∧ r.contents ≠ "" ∧
          hasInsufficientInfo r.contents = false := by
  rw [executeBlocks_map_fst, List.mem_filter]
  exact and_congr_right fun _ => usableOutcome_iff (net s)

/-- C3: injecting a rejection into exactly one section's call turns only that
section's outcome into a failure: every other section's block membership is
unchanged, the failed section contributes no block, the run still returns a
report, one settled result is collected per dispatched section, and the
injected section's slot holds the rejection. -/
theorem failure_localized (configKey envKey : Option String) (dataMaxPrice : Nat)
    (now : Int) (company : String) (sections : Option (List SectionId))
    (net net' : SectionId → SettledResult AnswerResponse) (s₀ : SectionId)
    (err : String)
    (hk : isMissingKey (resolveApiKey configKey envKey) = false)
    (hinj : ∀ s, net' s = if s = s₀ then .rejected err else net s) :
    (∀ s, s ≠ s₀ → ∀ c,
      ((s, c) ∈ executeBlocks sections net' ↔ (s, c) ∈ executeBlocks sections net)) ∧
    (∀ b ∈ executeBlocks sections net', b.1 ≠ s₀) ∧
    (∃ out, (execute configKey envKey dataMaxPrice now company sections net').1 =
      Except.ok out) ∧
    (settleAll net' (dispatchedSections sections)).length =
      (dispatchedSections sections).length ∧
    (s₀ ∈ dispatchedSections sections →
      SettledResult.rejected err ∈ settleAll net' (dispatchedSections sections)) := by
  have hs₀ : net' s₀ = .rejected err := by
    rw [hinj s₀, if_pos rfl]
  have hagree : ∀ s, s ≠ s₀ → net' s = net s := by
    intro s hs
    rw [hinj s, if_neg hs]
  refine ⟨?_, ?_, ?_, List.length_map _ _, ?_⟩
  · intro s hs c
    rw [mem_executeBlocks_iff, mem_executeBlocks_iff, hagree s hs]
  · rintro ⟨s, c⟩ hb hbs
    have hmem := (mem_executeBlocks_iff sections net' s c).mp hb
    have hseq : s = s₀ := hbs
    rw [hseq, hs₀] at hmem
    exact absurd hmem.2.1 (by simp [usableOutcome])
  · refine ⟨assembleReport company (selectedSectionsOf sections)
      (settleAll net' (dispatchedSections sections)), ?_⟩
    simp only [execute]
    rw [if_neg (by rw [hk]; exact Bool.false_ne_true)]
  · intro hmem
    unfold settleAll
    refine List.mem_map.mpr ⟨s₀, hmem, ?_⟩
    rw [hs₀]

/-- The well-behaved oracle of the C3 witness. -/
def c3Good : SettledResult AnswerResponse :=
  SettledResult.fulfilled
    { success := true, contents := "All good.", search_results := none }

/-- The C3 witness oracle before failure injection. -/
def c3Net : SectionId → SettledResult AnswerResponse := fun _ => c3Good

/-- The C3 witness oracle with the news call rejected. -/
def c3NetInjected : SectionId → SettledResult AnswerResponse :=
  fun s => if s = SectionId.news then SettledResult.rejected "boom" else c3Good

/-- Witness for C3 at a concrete two-section run with the failure injected
into the news section. -/
theorem failure_localized_witness :
    isMissingKey (resolveApiKey (some "key") none) = false ∧
    (∀ s, c3NetInjected s =
      if s = SectionId.news then SettledResult.rejected "boom" else c3Net s) ∧
    ((SectionId.summary, "All good.") ∈
        executeBlocks (some [SectionId.summary, SectionId.news]) c3NetInjected ↔
      (SectionId.summary, "All good.") ∈
        executeBlocks (some [SectionId.summary, SectionId.news]) c3Net) := by
  refine ⟨by decide, fun s => rfl, ?_⟩
  exact (failure_localized (some "key") none 100 0 "Acme"
    (some [SectionId.summary, SectionId.news]) c3Net c3NetInjected
    SectionId.news "boom" (by decide) (fun s => rfl)).1
    SectionId.summary (by decide) "All good."

/-- C4: the run — and with it the deduplicated citation list — is a function
only of the dispatch order and the per-section outcomes: two settlement
schedules that are permutations of the same indexed results produce identical
outputs. -/
theorem citation_list_arrival_order_independent (configKey envKey : Option String)
    (dataMaxPrice : Nat) (now : Int) (company : String)
    (sections : Option (List SectionId))
    (net : SectionId → SettledResult AnswerResponse)
    (a₁ a₂ : List (Nat × SettledResult (SectionId × AnswerResponse)))
    (h₁ : a₁.Perm (indexedResults sections net))
    (h₂ : a₂.Perm (indexedResults sections net)) :
    executeFromArrival configKey envKey dataMaxPrice now company sections a₁ =
      executeFromArrival configKey envKey dataMaxPrice now company sections a₂ :=
  (executeFromArrival_eq_execute configKey envKey dataMaxPrice now company
      sections net a₁ h₁).trans
    (executeFromArrival_eq_execute configKey envKey dataMaxPrice now company
      sections net a₂ h₂).symm

/-- The oracle of the C4 witness: both sections answer successfully with one
citation each. -/
def c4Net : SectionId → SettledResult AnswerResponse :=
  fun s =>
    if s = SectionId.summary then
      SettledResult.fulfilled
        { success := true, contents := "Acme is a company.",
          search_results := some [{ title := some "A", url := "https://a", date := none }] }
    else
      SettledResult.fulfilled
        { success := true, contents := "Recent news about Acme.",
          search_results := some [{ title := some "B", url := "https://b", date := none }] }

/-- Witness for C4: the same two settled results delivered in the two
opposite arrival orders yield the same run output. -/
theorem citation_list_arrival_order_independent_witness :
    ((indexedResults (some [SectionId.summary, SectionId.news]) c4Net).Perm
      (indexedResults (some [SectionId.summary, SectionId.news]) c4Net)) ∧
    ((indexedResults (some [SectionId.summary, SectionId.news]) c4Net).reverse.Perm
      (indexedResults (some [SectionId.summary, SectionId.news]) c4Net)) ∧
    executeFromArrival (some "key") none 100 0 "Acme"
        (some [SectionId.summary, SectionId.news])
        (indexedResults (some [SectionId.summary, SectionId.news]) c4Net) =
      executeFromArrival (some "key") none 100 0 "Acme"
        (some [SectionId.summary, SectionId.news])
        (indexedResults (some [SectionId.summary, SectionId.news]) c4Net).reverse := by
  refine ⟨List.Perm.refl _, List.reverse_perm _, ?_⟩
  exact citation_list_arrival_order_independent (some "key") none 100 0 "Acme"
    (some [SectionId.summary, SectionId.news]) c4Net _ _
    (List.Perm.refl _) (List.reverse_perm _)

/-- C5: the content quality filter flags an answer text exactly when the text
is empty or its lowercasing contains one of the nine fixed hedge phrases;
every other text passes. -/
theorem classify_unusable_iff (c : String) :
    hasInsufficientInfo c =
      (c.isEmpty || hedgePhrases.any (fun p => strIncludes (lowerStr c) p)) := by
  unfold hasInsufficientInfo hedgePhrases
  by_cases h : c.isEmpty = true
  · rw [if_pos h, h, Bool.true_or]
  · rw [if_neg h, Bool.eq_false_iff.mpr h, Bool.false_or]
    simp only [List.any_cons, List.any_nil, Bool.or_false, Bool.or_assoc]

/-- C6 counterexample: two sources share the URL but differ in title and
date; the deduplicated list keeps the SECOND occurrence's title and date, not
the first occurrence's, refuting the claim that the later citation is dropped
entirely. -/
theorem dedup_first_occurrence_counterexample :
    uniqueSources
        [{ title := some "First", url := "https://shared", date := none },
         { title := some "Second", url := "https://shared", date := some "2024-01-01" }] =
      [{ title := some "Second", url := "https://shared", date := some "2024-01-01" }] ∧
    ({ title := some "Second", url := "https://shared", date := some "2024-01-01" } :
        SearchResult) ≠
      { title := some "First", url := "https://shared", date := none } := by
  constructor
  · rfl
  · decide

/-- C6 (amended): when a citation's URL has already been seen, the stored
entry keeps its first-seen position but its value is overwritten, so the kept
citation's title and date come from the LAST occurrence of that URL; the
output lists, for each URL in first-seen order, the last source carrying it. -/
theorem dedup_last_value_first_position (srcs : List SearchResult) :
    uniqueSources srcs =
      (firstSeenKeys (srcs.map (fun s => s.url))).filterMap (lastEntryFor srcs) :=
  uniqueSources_eq srcs

/-- C7: with no credential in the config and none in the environment, the run
fails immediately with the configuration error and issues zero network
requests, regardless of the requested sections or the network. -/
theorem missing_credential_fails_without_calls (dataMaxPrice : Nat) (now : Int)
    (company : String) (sections : Option (List SectionId))
    (net : SectionId → SettledResult AnswerResponse) :
    execute none none dataMaxPrice now company sections net =
      (Except.error missingKeyMessage, []) := rfl

/-- C8: when no dispatched section's outcome is usable, the run still returns
a report consisting of the subject header alone — empty body, no citations
block, empty source list — and does not fail. -/
theorem zero_usable_sections_header_only (configKey envKey : Option String)
    (dataMaxPrice : Nat) (now : Int) (company : String)
    (sections : Option (List SectionId))
    (net : SectionId → SettledResult AnswerResponse)
    (hk : isMissingKey (resolveApiKey configKey envKey) = false)
    (hzero : ∀ s ∈ dispatchedSections sections, usableOutcome (net s) = false) :
    (execute configKey envKey dataMaxPrice now company sections net).1 =
      Except.ok { company := company,
                  report := "# Company Research Report: " ++ company ++ "\n\n",
                  sections := selectedSectionsOf sections, sources := [] } := by
  have hfil : (dispatchedSections sections).filter
      (fun s => usableOutcome (net s)) = [] := by
    rw [List.filter_eq_nil_iff]
    intro s hs
    rw [hzero s hs]
    exact Bool.false_ne_true
  have hmain : processResults (settleAll net (dispatchedSections sections)) =
      ([], []) := by
    rw [processResults_settleAll, hfil]
    rfl
  simp only [execute]
  rw [if_neg (by rw [hk]; exact Bool.false_ne_true)]
  simp only [assembleReport, hmain, List.map_nil, List.length_nil]
  norm_num
  rw [show String.join ([] : List String) = "" from rfl, String.append_empty]

/-- Witness for C8 at a concrete run in which every call is rejected. -/
theorem zero_usable_sections_header_only_witness :
    isMissingKey (resolveApiKey (some "key") none) = false ∧
    (∀ s ∈ dispatchedSections (some [SectionId.summary, SectionId.news]),
      usableOutcome ((fun _ => SettledResult.rejected "boom") s) = false) ∧
    (execute (some "key") none 100 0 "Acme"
        (some [SectionId.summary, SectionId.news])
        (fun _ => SettledResult.rejected "boom")).1 =
      Except.ok { company := "Acme",
                  report := "# Company Research Report: " ++ "Acme" ++ "\n\n",
                  sections := selectedSectionsOf (some [SectionId.summary, SectionId.news]),
                  sources := [] } := by
  refine ⟨by decide, by decide, ?_⟩
  exact zero_usable_sections_header_only (some "key") none 100 0 "Acme"
    (some [SectionId.summary, SectionId.news]) (fun _ => SettledResult.rejected "boom")
    (by decide) (by decide)

/-- C9: the requests issued are one per dispatched section in catalog order;
the filings and insiders requests restrict the search to the proprietary
regulatory datasets instead of the open web, and the news request carries a
start date thirty days (in milliseconds) before the generation time. -/
theorem proprietary_sources_and_news_recency (configKey envKey : Option String)
    (dataMaxPrice : Nat) (now : Int) (company : String)
    (sections : Option (List SectionId))
    (net : SectionId → SettledResult AnswerResponse)
    (hk : isMissingKey (resolveApiKey configKey envKey) = false) :
    (execute configKey envKey dataMaxPrice now company sections net).2 =
      (dispatchedSections sections).map (buildRequest company dataMaxPrice now) ∧
    (buildRequest company dataMaxPrice now SectionId.filings).search_type =
      some "proprietary" ∧
    (buildRequest company dataMaxPrice now SectionId.filings).included_sources =
      some ["valyu/valyu-sec-filings"] ∧
    (buildRequest company dataMaxPrice now SectionId.insiders).search_type =
      some "proprietary" ∧
    (buildRequest company dataMaxPrice now SectionId.insiders).included_sources =
      some ["valyu/valyu-insider-transactions-US"] ∧
    (buildRequest company dataMaxPrice now SectionId.news).start_date =
      some (isoDateOfMillis (now - 30 * 24 * 60 * 60 * 1000)) := by
  refine ⟨?_, rfl, rfl, rfl, rfl, rfl⟩
  simp only [execute]
  rw [if_neg (by rw [hk]; exact Bool.false_ne_true)]

/-- Witness for C9 at a concrete key and generation time. -/
theorem proprietary_sources_and_news_recency_witness :
    isMissingKey (resolveApiKey (some "key") none) = false ∧
    (execute (some "key") none 100 1760227200000 "Acme" none
        (fun _ => SettledResult.rejected "x")).2 =
      (dispatchedSections none).map (buildRequest "Acme" 100 1760227200000) ∧
    (buildRequest "Acme" 100 1760227200000 SectionId.news).start_date =
      some (isoDateOfMillis (1760227200000 - 30 * 24 * 60 * 60 * 1000)) := by
  refine ⟨by decide, ?_, ?_⟩
  · exact (proprietary_sources_and_news_recency (some "key") none 100 1760227200000
      "Acme" none (fun _ => SettledResult.rejected "x") (by decide)).1
  · exact (proprietary_sources_and_news_recency (some "key") none 100 1760227200000
      "Acme" none (fun _ => SettledResult.rejected "x") (by decide)).2.2.2.2.2

/-- C10: any answer text whose lowercasing contains the flagged phrase about
the sources found is classified insufficient — even when the rest of the text
is substantive — so no response carrying it is usable and its section is
omitted from the report. -/
theorem flagged_phrase_forces_omission (c : String)
    (h : strIncludes (lowerStr c) "based on the sources found" = true) :
    hasInsufficientInfo c = true ∧
    (∀ r : AnswerResponse, r.contents = c → usableResponse r = false) ∧
    (∀ (sections : Option (List SectionId))
        (net : SectionId → SettledResult AnswerResponse)
        (s : SectionId) (r : AnswerResponse),
      net s = .fulfilled r → r.contents = c →
        s ∉ (executeBlocks sections net).map Prod.fst) := by
  have h1 : hasInsufficientInfo c = true := by
    unfold hasInsufficientInfo
    by_cases he : c.isEmpty = true
    · rw [if_pos he]
    · rw [if_neg he]
      simp only [h, Bool.or_true, Bool.true_or]
  have h2 : ∀ r : AnswerResponse, r.contents = c → usableResponse r = false := by
    intro r hr
    simp only [usableResponse, hr, h1, Bool.not_true, Bool.and_false]
  refine ⟨h1, h2, ?_⟩
  intro sections net s r hnet hrc hmem
  rw [executeBlocks_map_fst] at hmem
  have husable := (List.mem_filter.mp hmem).2
  rw [hnet] at husable
  have : usableResponse r = true := husable
  rw [h2 r hrc] at this
  exact Bool.false_ne_true this

/-- Witness for C10 at a substantive answer text that happens to carry the
flagged phrase. -/
theorem flagged_phrase_forces_omission_witness :
    strIncludes (lowerStr "Based on the sources found, Acme appears to lead its market.")
        "based on the sources found" = true ∧
    hasInsufficientInfo "Based on the sources found, Acme appears to lead its market." = true ∧
    SectionId.summary ∉
      (executeBlocks (some [SectionId.summary])
        (fun _ => SettledResult.fulfilled
          { success := true,
            contents := "Based on the sources found, Acme appears to lead its market.",
            search_results := none })).map Prod.fst := by
  refine ⟨by decide, ?_, ?_⟩
  · exact (flagged_phrase_forces_omission _ (by decide)).1
  · exact (flagged_phrase_forces_omission _ (by decide)).2.2
      (some [SectionId.summary]) _ SectionId.summary _ rfl rfl

end ValyuSdk
